import Mathlib

/-!
Shallow embedding of the backup decode pipeline and the binary backup
inspector from cmd/load.go of the juicefs repository: the conversion
cache (convert), the layered stream opener (open), the composed reader
close logic (reader.Close), and the inspector (statBak, showBakSummary,
showBakDetail).  Strings are lists of characters, file contents are
lists of naturals, and external collaborators (file system, crypto and
compression libraries, the backup container parser) are modelled by
explicit oracles; functions additionally return a trace of the effects
they perform, in order.
-/

namespace JuiceFS

/-- Strings are modelled as lists of characters. -/
abbrev Str := List Char

/-- Go strings.HasSuffix. -/
def hasSuffix (s suf : Str) : Bool := decide (suf <:+ s)

/-- Go strings.Contains. -/
def containsSub (s sub : Str) : Bool := decide (sub <:+: s)

/-- The literal ".gz" suffix. -/
def gzSuf : Str := ['.', 'g', 'z']

/-- The literal ".zstd" suffix. -/
def zstdSuf : Str := ['.', 'z', 's', 't', 'd']

/-- The literal "ENCRYPTED" marker searched for in the Proc-Type header. -/
def encMark : Str := ['E', 'N', 'C', 'R', 'Y', 'P', 'T', 'E', 'D']

/-- Index of the first occurrence of the dot character in a string. -/
def firstDotIdx : Str → Option Nat
  | [] => none
  | c :: cs => if c = '.' then some 0 else (firstDotIdx cs).map (· + 1)

/-- Go strings.LastIndex(path, "."): none models the -1 return. -/
def lastDotIdx (s : Str) : Option Nat :=
  (firstDotIdx s.reverse).map (fun j => s.length - 1 - j)

/-- The plain path computed by convert, path[:strings.LastIndex(path, ".")].
none models the Go run-time panic caused by the -1 slice bound when the
path holds no dot. -/
def nPathOf (path : Str) : Option Str :=
  (lastDotIdx path).map (fun i => path.take i)

/-- File contents. -/
abbrev Bytes := List Nat

/-- The file system: an association list from paths to contents. -/
abbrev FS := List (Str × Bytes)

/-- Look a path up in the file system. -/
def fsLookup : FS → Str → Option Bytes
  | [], _ => none
  | (q, bs) :: rest, p => if q = p then some bs else fsLookup rest p

/-- Write a file: overwrite the entry if present, append it otherwise. -/
def fsSet : FS → Str → Bytes → FS
  | [], p, bs => [(p, bs)]
  | (q, cs) :: rest, p, bs =>
      if q = p then (p, bs) :: rest else (q, cs) :: fsSet rest p bs

/-- utils.Exists: whether a file is present at the path. -/
def fsExists (fs : FS) (p : Str) : Bool := (fsLookup fs p).isSome

/-- os.Create: open with O_CREATE and O_TRUNC.  An existing file at the
path is truncated to empty, never a failure cause; ok models failure from
other causes (permissions, missing directory). -/
def osCreate (ok : Bool) (fs : FS) (p : Str) : Option FS :=
  if ok then some (fsSet fs p []) else none

/-- Oracles for the external calls convert makes: the file system, the
outcome of open, of os.Create and of io.Copy, the decoded plaintext on a
full copy and the partial bytes left by an interrupted copy. -/
structure ConvEnv where
  fs : FS
  openOk : Bool
  createOk : Bool
  copyOk : Bool
  decoded : Bytes
  midCopyData : Bytes

/-- Effects performed by convert, in order. -/
inductive Eff
  | openSrc
  | create (p : Str)
  | closeWriter
  | closeReader
deriving DecidableEq, Repr

/-- Errors returned by convert. -/
inductive ConvErr
  | openFail
  | createFail
  | copyFail
deriving DecidableEq, Repr

/-- convert of cmd/load.go.  Returns none on the Go panic (no dot in the
path while a decode is required); otherwise the result, the final file
system and the trace of effects.  The deferred r.Close and w.Close run in
last-in-first-out order on every exit path reached after their defer. -/
def convert (env : ConvEnv) (path key algo : Str) :
    Option (Except ConvErr Str × FS × List Eff) :=
  let isCompress := hasSuffix path gzSuf || hasSuffix path zstdSuf
  if key.isEmpty && !isCompress then some (.ok path, env.fs, [])
  else
    match nPathOf path with
    | none => none
    | some nPath =>
      if fsExists env.fs nPath then some (.ok nPath, env.fs, [])
      else if !env.openOk then some (.error .openFail, env.fs, [.openSrc])
      else
        match osCreate env.createOk env.fs nPath with
        | none => some (.error .createFail, env.fs, [.openSrc, .closeReader])
        | some fs1 =>
          if env.copyOk then
            some (.ok nPath, fsSet fs1 nPath env.decoded,
                  [.openSrc, .create nPath, .closeWriter, .closeReader])
          else
            some (.error .copyFail, fsSet fs1 nPath env.midCopyData,
                  [.openSrc, .create nPath, .closeWriter, .closeReader])

/-- Run-time stream objects built by open: the base handle (a plain file,
or the plaintext stream of the encrypted-object accessor) and compression
wrappers over it.  Structural equality models Go object identity here:
distinct constructors are distinct objects. -/
inductive Strm
  | file (src : Str) (encrypted : Bool)
  | gzipR (inner : Strm)
  | zstdR (inner : Strm)
deriving DecidableEq, Repr

/-- The reader struct of cmd/load.go: Read delegates to compressR, Close
consults both fields. -/
structure Reader where
  compressR : Strm
  encryptR : Strm
deriving DecidableEq, Repr

/-- A decoded PEM block: the Proc-Type header value ("" when the header is
absent, following Go map semantics) and whether a DEK-Info header is
present (what x509.IsEncryptedPEMBlock checks). -/
structure PemBlock where
  procType : Str
  hasDekInfo : Bool
deriving DecidableEq, Repr

/-- The header check guarding the passphrase-required error: the block
decoded, its Proc-Type header contains "ENCRYPTED", and
x509.IsEncryptedPEMBlock holds. -/
def pemEncrypted : Option PemBlock → Bool
  | some b => containsSub b.procType encMark && b.hasDekInfo
  | none => false

/-- Oracles for the external calls open makes: the passphrase environment
variable ([] when unset or empty), the PEM decode of the key material, and
the outcomes of key parsing, encryptor construction, stat, absolute-path
resolution, storage construction, encrypted get, plain os.Open and gzip
header parsing. -/
structure OpenEnv where
  passphrase : Str
  pemBlock : Option PemBlock
  parseRsaOk : Bool
  encryptorOk : Bool
  statOk : Bool
  absOk : Bool
  storageOk : Bool
  getOk : Bool
  osOpenOk : Bool
  gzipOk : Bool

/-- Errors returned by open. -/
inductive OpenErr
  | passphraseRequired
  | parseRsa
  | encryptorInit
  | statFail
  | absFail
  | storageFail
  | getFail
  | osOpenFail
  | gzipInit
deriving DecidableEq, Repr

/-- Events recording open's attempts to use the key material or the
source, in order. -/
inductive OpenEv
  | parseKeyAttempt
  | newEncryptor
  | statSrc
  | getEncrypted
  | osOpen
  | gzipNew
  | zstdNew
deriving DecidableEq, Repr

/-- The compression-selection tail of open: wrap fp according to the
source path's suffix; .gz is checked first, then .zstd, anything else
uses fp itself as the compression layer. -/
def openCompress (env : OpenEnv) (src : Str) (fp : Strm) (tr : List OpenEv) :
    Except OpenErr Reader × List OpenEv :=
  if hasSuffix src gzSuf then
    if env.gzipOk then (.ok ⟨Strm.gzipR fp, fp⟩, tr ++ [.gzipNew])
    else (.error .gzipInit, tr ++ [.gzipNew])
  else if hasSuffix src zstdSuf then
    (.ok ⟨Strm.zstdR fp, fp⟩, tr ++ [.zstdNew])
  else (.ok ⟨fp, fp⟩, tr)

/-- open of cmd/load.go (openStream here, open being reserved in Lean). -/
def openStream (env : OpenEnv) (src key algo : Str) :
    Except OpenErr Reader × List OpenEv :=
  if key.isEmpty then
    if env.osOpenOk then openCompress env src (Strm.file src false) [.osOpen]
    else (.error .osOpenFail, [.osOpen])
  else
    if env.passphrase.isEmpty && pemEncrypted env.pemBlock then
      (.error .passphraseRequired, [])
    else if !env.parseRsaOk then (.error .parseRsa, [.parseKeyAttempt])
    else if !env.encryptorOk then
      (.error .encryptorInit, [.parseKeyAttempt, .newEncryptor])
    else if !env.statOk then
      (.error .statFail, [.parseKeyAttempt, .newEncryptor, .statSrc])
    else if !env.absOk then
      (.error .absFail, [.parseKeyAttempt, .newEncryptor, .statSrc])
    else if !env.storageOk then
      (.error .storageFail, [.parseKeyAttempt, .newEncryptor, .statSrc])
    else if !env.getOk then
      (.error .getFail, [.parseKeyAttempt, .newEncryptor, .statSrc, .getEncrypted])
    else
      openCompress env src (Strm.file src true)
        [.parseKeyAttempt, .newEncryptor, .statSrc, .getEncrypted]

/-- reader.Close of cmd/load.go.  compressOk and baseOk are the results
the two underlying Close calls would return; the list holds the close
calls performed, in order, identified by the object closed.  The early
return on a compression-close error skips the base close. -/
def readerClose (rd : Reader) (compressOk baseOk : Bool) :
    Except Unit Unit × List Strm :=
  if !compressOk then (.error (), [rd.compressR])
  else if rd.encryptR = rd.compressR then (.ok (), [rd.compressR])
  else ((if baseOk then .ok () else .error ()), [rd.compressR, rd.encryptR])

/-- One entry of the backup footer's segment index. -/
structure SegInfo where
  name : Str
  num : Nat
  offset : Int
deriving DecidableEq, Repr

/-- The backup footer: version and segment index. -/
structure Footer where
  version : Nat
  infos : List SegInfo
deriving DecidableEq, Repr

/-- One segment as read by bak.ReadSegment: its name and its rendered
value. -/
structure Segment where
  name : Str
  value : Str
deriving DecidableEq, Repr

/-- Oracles for statBak: whether os.Open succeeds, the offset flag (none
when the flag is unset), the footer the file holds (none when
bak.ReadFooter fails) and the segment decoded after seeking to a given
offset (none when bak.ReadSegment fails there). -/
structure StatEnv where
  openOk : Bool
  offsetFlag : Option Int
  footer : Option Footer
  segAt : Int → Option Segment

/-- One row of the rendered summary table. -/
inductive Row
  | noOff (name : Str) (num : Nat)
  | withOff (name : Str) (num : Nat) (offset : Int)
deriving DecidableEq, Repr

/-- The inspector's rendered output. -/
inductive StatOut
  | summary (version : Nat) (rows : List Row)
  | detail (seg : Segment)
  | failure
deriving DecidableEq, Repr

/-- File operations performed by the inspector, in order. -/
inductive FOp
  | openFile
  | readFooter
  | seekStart (offset : Int)
  | readSegment
deriving DecidableEq, Repr

/-- Go lexicographic string comparison, as used by sort.Slice's less. -/
def strLt : Str → Str → Bool
  | [], [] => false
  | [], _ :: _ => true
  | _ :: _, [] => false
  | a :: as, b :: bs => if a < b then true else if b < a then false else strLt as bs

/-- The name cell of a row, the sort key. -/
def rowName : Row → Str
  | .noOff n _ => n
  | .withOff n _ _ => n

/-- Total order used to model sort.Slice on rows. -/
def rowLe (a b : Row) : Bool := !(strLt (rowName b) (rowName a))

/-- showBakSummary of cmd/load.go: read the footer, build one row per
index entry (with the offset column exactly when withOffset), sort rows
by name. -/
def showBakSummary (env : StatEnv) (withOffset : Bool) : StatOut × List FOp :=
  match env.footer with
  | none => (.failure, [.readFooter])
  | some f =>
    let rows := f.infos.map (fun i =>
      if withOffset then Row.withOff i.name i.num i.offset
      else Row.noOff i.name i.num)
    (.summary f.version (rows.mergeSort rowLe), [.readFooter])

/-- showBakDetail of cmd/load.go: seek to the offset from the start of
the file, then read and render exactly one segment. -/
def showBakDetail (env : StatEnv) (offset : Int) : StatOut × List FOp :=
  match env.segAt offset with
  | none => (.failure, [.seekStart offset, .readSegment])
  | some s => (.detail s, [.seekStart offset, .readSegment])

/-- statBak of cmd/load.go: open the file, then dispatch on the offset
flag — unset gives the summary without offsets, -1 the summary with all
offsets, anything else the single-segment detail view. -/
def statBak (env : StatEnv) (path : Str) : StatOut × List FOp :=
  if !env.openOk then (.failure, [.openFile])
  else
    match env.offsetFlag with
    | none =>
        let r := showBakSummary env false
        (r.1, .openFile :: r.2)
    | some o =>
        if o = -1 then
          let r := showBakSummary env true
          (r.1, .openFile :: r.2)
        else
          let r := showBakDetail env o
          (r.1, .openFile :: r.2)

lemma firstDotIdx_eq_none_iff (s : Str) : firstDotIdx s = none ↔ '.' ∉ s := by
  induction s with
  | nil => simp [firstDotIdx]
  | cons c cs ih =>
    by_cases hc : c = '.'
    · subst hc; simp [firstDotIdx]
    · simp [firstDotIdx, hc, Option.map_eq_none, ih, Ne.symm hc]

lemma lastDotIdx_eq_none_iff (s : Str) : lastDotIdx s = none ↔ '.' ∉ s := by
  unfold lastDotIdx
  simp [Option.map_eq_none', firstDotIdx_eq_none_iff, List.mem_reverse]

lemma lastDotIdx_append_gz (t : Str) : lastDotIdx (t ++ gzSuf) = some t.length := by
  have h : (t ++ gzSuf).reverse = 'z' :: 'g' :: '.' :: t.reverse := by
    simp [gzSuf, List.reverse_append]
  unfold lastDotIdx
  rw [h]
  simp [firstDotIdx, gzSuf]

lemma lastDotIdx_append_zstd (t : Str) : lastDotIdx (t ++ zstdSuf) = some t.length := by
  have h : (t ++ zstdSuf).reverse = 'd' :: 't' :: 's' :: 'z' :: '.' :: t.reverse := by
    simp [zstdSuf, List.reverse_append]
  unfold lastDotIdx
  rw [h]
  simp [firstDotIdx, zstdSuf]

lemma nPathOf_append_gz (t : Str) : nPathOf (t ++ gzSuf) = some t := by
  unfold nPathOf
  rw [lastDotIdx_append_gz]
  simp [List.take_left]

lemma nPathOf_append_zstd (t : Str) : nPathOf (t ++ zstdSuf) = some t := by
  unfold nPathOf
  rw [lastDotIdx_append_zstd]
  simp [List.take_left]

lemma fsLookup_fsSet (fs : FS) (p : Str) (bs : Bytes) :
    fsLookup (fsSet fs p bs) p = some bs := by
  induction fs with
  | nil => simp [fsSet, fsLookup]
  | cons e rest ih =>
    obtain ⟨q, cs⟩ := e
    by_cases hq : q = p
    · subst hq; simp [fsSet, fsLookup]
    · simp [fsSet, fsLookup, hq, ih]

lemma fsExists_fsSet (fs : FS) (p : Str) (bs : Bytes) :
    fsExists (fsSet fs p bs) p = true := by
  simp [fsExists, fsLookup_fsSet]

/-- Claim C3: when a decode is required (non-empty key or a compression
suffix present) and the source path holds no dot character, convert hits
the Go run-time panic from the -1 slice bound (modelled as none) instead
of returning an error value: convert is not total over its decode
precondition. -/
theorem convert_panics_without_dot (env : ConvEnv) (path key algo : Str)
    (hneed : key ≠ [] ∨ (hasSuffix path gzSuf || hasSuffix path zstdSuf) = true)
    (hdot : '.' ∉ path) :
    convert env path key algo = none := by
  have hnp : nPathOf path = none := by
    unfold nPathOf
    simp [Option.map_eq_none', lastDotIdx_eq_none_iff, hdot]
  unfold convert
  rcases hneed with hk | hc
  · simp [List.isEmpty_iff, hk, hnp]
  · simp [hc, hnp]

/-- Claim C3 witness. -/
theorem convert_panics_without_dot_witness :
    convert ⟨[], true, true, true, [], []⟩ ['b', 'a', 'k'] ['k'] [] = none :=
  convert_panics_without_dot _ _ _ _ (Or.inl (by decide)) (by decide)

/-- Claim C8: for a source with no key supplied and no compression
suffix, convert returns the source path unchanged, leaves the file system
unchanged and performs no effects at all: it neither opens the source nor
creates a file. -/
theorem convert_noop_plain (env : ConvEnv) (path algo : Str)
    (hgz : hasSuffix path gzSuf = false) (hzstd : hasSuffix path zstdSuf = false) :
    convert env path [] algo = some (.ok path, env.fs, []) := by
  unfold convert
  simp [hgz, hzstd]

/-- Claim C8 witness. -/
theorem convert_noop_plain_witness :
    convert ⟨[(['q'], [7])], true, true, true, [1], [2]⟩
        ['m', 'e', 't', 'a', '.', 'b', 'i', 'n'] [] []
      = some (.ok ['m', 'e', 't', 'a', '.', 'b', 'i', 'n'], [(['q'], [7])], []) :=
  convert_noop_plain _ _ _ (by decide) (by decide)

/-- Claim C4: for every algorithm selector, when the supplied key resolves
to a PEM block whose headers mark it passphrase-encrypted and the
passphrase environment variable is empty or unset, open fails with the
passphrase-required error and an empty event trace: no attempt to parse
or use the key for decryption precedes the failure. -/
theorem openStream_passphrase_required (env : OpenEnv) (src key algo : Str)
    (b : PemBlock) (hkey : key ≠ []) (hpass : env.passphrase = [])
    (hblock : env.pemBlock = some b)
    (hmark : containsSub b.procType encMark = true)
    (hdek : b.hasDekInfo = true) :
    openStream env src key algo = (.error .passphraseRequired, []) := by
  unfold openStream
  simp [List.isEmpty_iff, hkey, hpass, hblock, pemEncrypted, hmark, hdek]

/-- Claim C4 witness. -/
theorem openStream_passphrase_required_witness :
    openStream
        ⟨[], some ⟨['4', ',', 'E', 'N', 'C', 'R', 'Y', 'P', 'T', 'E', 'D'], true⟩,
         true, true, true, true, true, true, true, true⟩
        ['a', '.', 'g', 'z'] ['k'] ['x']
      = (.error .passphraseRequired, []) :=
  openStream_passphrase_required _ _ _ _ _ (by decide) (by decide) rfl (by decide) (by decide)
/-- Claim C1 is false as stated: for the encrypted source "backup.json",
which carries no .gz or .zstd suffix, convert does not return the source
path: it strips the ".json" suffix and returns "backup" (here via the
cache-hit branch, with a file present at "backup"). -/
theorem convert_strips_foreign_suffix_cex :
    convert ⟨[(['b', 'a', 'c', 'k', 'u', 'p'], [])], true, true, true, [], []⟩
        ['b', 'a', 'c', 'k', 'u', 'p', '.', 'j', 's', 'o', 'n'] ['k'] []
      = some (.ok ['b', 'a', 'c', 'k', 'u', 'p'],
              [(['b', 'a', 'c', 'k', 'u', 'p'], [])], [])
    ∧ (['b', 'a', 'c', 'k', 'u', 'p'] : Str)
        ≠ ['b', 'a', 'c', 'k', 'u', 'p', '.', 'j', 's', 'o', 'n'] :=
  ⟨rfl, by decide⟩

/-- Claim C1 (amended): for a source ending in .gz or .zstd the plain
path convert derives is the source with exactly that suffix removed; for
an encrypted source with any other suffix, convert strips everything from
the last dot onward, whatever that suffix is (shown on the cache-hit
branch, which returns the derived path as is). -/
theorem convert_plainPath (env : ConvEnv) (t key algo : Str) :
    (fsExists env.fs t = true →
       convert env (t ++ gzSuf) key algo = some (.ok t, env.fs, [])) ∧
    (fsExists env.fs t = true →
       convert env (t ++ zstdSuf) key algo = some (.ok t, env.fs, [])) ∧
    (key ≠ [] → ∀ path i, lastDotIdx path = some i →
       fsExists env.fs (path.take i) = true →
       convert env path key algo = some (.ok (path.take i), env.fs, [])) := by
  refine ⟨fun hex => ?_, fun hex => ?_, fun hkey path i hdot hex => ?_⟩
  · have hsuf : hasSuffix (t ++ gzSuf) gzSuf = true := by
      simp [hasSuffix]
    unfold convert
    simp [hsuf, nPathOf_append_gz, hex]
  · have hsuf : hasSuffix (t ++ zstdSuf) zstdSuf = true := by
      simp [hasSuffix]
    unfold convert
    simp [hsuf, nPathOf_append_zstd, hex]
  · have hnp : nPathOf path = some (path.take i) := by
      unfold nPathOf
      rw [hdot]
      rfl
    unfold convert
    simp [List.isEmpty_iff, hkey, hnp, hex]
/-- Claim C1 (amended) witness. -/
theorem convert_plainPath_witness :
    convert ⟨[(['a'], [])], true, true, true, [], []⟩ (['a'] ++ gzSuf) ['k'] []
        = some (.ok ['a'], [(['a'], [])], [])
    ∧ convert ⟨[(['a'], [])], true, true, true, [], []⟩ (['a'] ++ zstdSuf) ['k'] []
        = some (.ok ['a'], [(['a'], [])], [])
    ∧ convert ⟨[(['x'], [])], true, true, true, [], []⟩ ['x', '.', 'y'] ['k'] []
        = some (.ok (['x', '.', 'y'].take 1), [(['x'], [])], []) :=
  ⟨(convert_plainPath ⟨[(['a'], [])], true, true, true, [], []⟩ ['a'] ['k'] []).1 (by decide),
   (convert_plainPath ⟨[(['a'], [])], true, true, true, [], []⟩ ['a'] ['k'] []).2.1 (by decide),
   (convert_plainPath ⟨[(['x'], [])], true, true, true, [], []⟩ ['a'] ['k'] []).2.2
     (by decide) ['x', '.', 'y'] 1 (by decide) (by decide)⟩

/-- Claim C2 is false as stated: the create call convert uses (os.Create,
modelled by osCreate) succeeds when a file already exists at the target
and silently truncates it to empty, rather than failing. -/
theorem osCreate_truncates_cex :
    osCreate true [(['p'], [1, 2, 3])] ['p'] ≠ none ∧
    osCreate true [(['p'], [1, 2, 3])] ['p'] = some [(['p'], [])] := by decide

/-- Claim C2 (amended): convert creates the target with create-or-truncate
semantics: the create never fails because the target already exists, and
an existing file at the target is truncated to empty at creation time;
overwriting a previously materialized artifact is avoided only by
convert's earlier existence check. -/
theorem osCreate_semantics (fs : FS) (p : Str) :
    osCreate true fs p = some (fsSet fs p []) ∧
    fsLookup (fsSet fs p []) p = some [] := by
  exact ⟨rfl, fsLookup_fsSet fs p []⟩

/-- Claim C7: when a decode is required and a file already exists at the
derived plain path, convert returns that path at once, with no effects
and no file-system change, whatever its other oracles say (in particular
it never opens the source, so an unreadable source is irrelevant); and
after any successful convert, a second invocation over the resulting file
system returns the same path with no effects, again for arbitrary
oracles. -/
theorem convert_cache_hit (env env2 : ConvEnv) (path key algo nP : Str)
    (hneed : key ≠ [] ∨ (hasSuffix path gzSuf || hasSuffix path zstdSuf) = true) :
    (nPathOf path = some nP → fsExists env.fs nP = true →
       convert env path key algo = some (.ok nP, env.fs, [])) ∧
    (∀ res fs1 evs, convert env path key algo = some (.ok res, fs1, evs) →
       env2.fs = fs1 →
       convert env2 path key algo = some (.ok res, fs1, [])) := by
  have hguard : (key.isEmpty &&
      !(hasSuffix path gzSuf || hasSuffix path zstdSuf)) = false := by
    rcases hneed with hk | hc
    · simp [List.isEmpty_iff, hk]
    · simp [hc]
  constructor
  · intro hnp hex
    unfold convert
    simp only [hguard, Bool.false_eq_true, if_false, hnp]
    simp [hex]
  · intro res fs1 evs hrun hfs
    unfold convert at hrun ⊢
    simp only [hguard, Bool.false_eq_true, if_false] at hrun ⊢
    cases hnp : nPathOf path with
    | none => rw [hnp] at hrun; exact absurd hrun (by simp)
    | some nQ =>
      rw [hnp] at hrun
      by_cases hex : fsExists env.fs nQ = true
      · simp [hex] at hrun
        obtain ⟨h1, h2, h3⟩ := hrun
        subst h1 h2
        simp [hfs, hex]
      · have hexf : fsExists env.fs nQ = false := by
          cases h : fsExists env.fs nQ
          · rfl
          · exact absurd h hex
        simp only [hexf, Bool.false_eq_true, if_false] at hrun
        cases hopen : env.openOk with
        | false => rw [hopen] at hrun; simp at hrun
        | true =>
          rw [hopen] at hrun
          simp only [Bool.not_true, Bool.false_eq_true, if_false] at hrun
          cases hcreate : env.createOk with
          | false => simp [osCreate, hcreate] at hrun
          | true =>
            simp only [osCreate, hcreate, if_true] at hrun
            cases hcopy : env.copyOk with
            | false => rw [hcopy] at hrun; simp at hrun
            | true =>
              rw [hcopy] at hrun
              simp at hrun
              obtain ⟨h1, h2, h3⟩ := hrun
              subst h1 h2
              simp [hfs, fsExists_fsSet]

/-- Claim C7 witness. -/
theorem convert_cache_hit_witness :
    convert ⟨[(['a'], [])], false, false, false, [], []⟩
        ['a', '.', 'g', 'z'] [] [] = some (.ok ['a'], [(['a'], [])], [])
    ∧ convert ⟨[(['a'], [9])], false, false, false, [], []⟩
        ['a', '.', 'g', 'z'] [] [] = some (.ok ['a'], [(['a'], [9])], []) :=
  ⟨(convert_cache_hit ⟨[(['a'], [])], false, false, false, [], []⟩
      ⟨[(['a'], [])], false, false, false, [], []⟩ ['a', '.', 'g', 'z'] [] [] ['a']
      (Or.inr (by decide))).1 (by decide) (by decide),
   (convert_cache_hit ⟨[], true, true, true, [9], []⟩
      ⟨[(['a'], [9])], false, false, false, [], []⟩ ['a', '.', 'g', 'z'] [] [] ['a']
      (Or.inr (by decide))).2 ['a'] [(['a'], [9])]
      [.openSrc, .create ['a'], .closeWriter, .closeReader] rfl rfl⟩
lemma openCompress_sel (env : OpenEnv) (src : Str) (fp : Strm) (tr : List OpenEv)
    (r : Reader) (evs : List OpenEv)
    (h : openCompress env src fp tr = (.ok r, evs)) :
    r.encryptR = fp ∧
    r.compressR =
      (if hasSuffix src gzSuf then Strm.gzipR fp
       else if hasSuffix src zstdSuf then Strm.zstdR fp
       else fp) := by
  unfold openCompress at h
  by_cases hgz : hasSuffix src gzSuf = true
  · rw [if_pos hgz] at h
    cases hok : env.gzipOk with
    | false => rw [hok] at h; simp at h
    | true =>
      rw [hok] at h
      simp only [if_true, Prod.mk.injEq, Except.ok.injEq] at h
      obtain ⟨h1, h2⟩ := h
      simp [← h1, hgz]
  · have hgzf : hasSuffix src gzSuf = false := by
      cases hh : hasSuffix src gzSuf
      · rfl
      · exact absurd hh hgz
    rw [hgzf] at h
    simp only [Bool.false_eq_true, if_false] at h
    by_cases hz : hasSuffix src zstdSuf = true
    · rw [if_pos hz] at h
      simp only [Prod.mk.injEq, Except.ok.injEq] at h
      obtain ⟨h1, h2⟩ := h
      simp [← h1, hgzf, hz]
    · have hzf : hasSuffix src zstdSuf = false := by
        cases hh : hasSuffix src zstdSuf
        · rfl
        · exact absurd hh hz
      rw [hzf] at h
      simp only [Bool.false_eq_true, if_false, Prod.mk.injEq, Except.ok.injEq] at h
      obtain ⟨h1, h2⟩ := h
      simp [← h1, hgzf, hzf]

/-- Claim C9: open selects the compression layer solely from the source
path's suffix: a .gz path wraps the base stream in a gzip decoder, a
.zstd path in a zstd decoder, and for any other path the compression
layer is the base object itself (identity passthrough, same object in
both fields of the composed reader). -/
theorem openStream_compression_select (env : OpenEnv) (src key algo : Str)
    (r : Reader) (evs : List OpenEv)
    (h : openStream env src key algo = (.ok r, evs)) :
    r.compressR =
      (if hasSuffix src gzSuf then Strm.gzipR r.encryptR
       else if hasSuffix src zstdSuf then Strm.zstdR r.encryptR
       else r.encryptR) := by
  unfold openStream at h
  by_cases hkey : key.isEmpty = true
  · rw [if_pos hkey] at h
    cases hop : env.osOpenOk with
    | false => rw [hop] at h; simp at h
    | true =>
      rw [hop] at h
      simp only [if_true] at h
      obtain ⟨he, hc⟩ := openCompress_sel _ _ _ _ _ _ h
      rw [hc, he]
  · rw [if_neg hkey] at h
    by_cases hpp : (env.passphrase.isEmpty && pemEncrypted env.pemBlock) = true
    · rw [if_pos hpp] at h; simp at h
    · rw [if_neg hpp] at h
      cases h1 : env.parseRsaOk with
      | false => simp [h1] at h
      | true =>
        simp only [h1, Bool.not_true, Bool.false_eq_true, if_false] at h
        cases h2 : env.encryptorOk with
        | false => simp [h2] at h
        | true =>
          simp only [h2, Bool.not_true, Bool.false_eq_true, if_false] at h
          cases h3 : env.statOk with
          | false => simp [h3] at h
          | true =>
            simp only [h3, Bool.not_true, Bool.false_eq_true, if_false] at h
            cases h4 : env.absOk with
            | false => simp [h4] at h
            | true =>
              simp only [h4, Bool.not_true, Bool.false_eq_true, if_false] at h
              cases h5 : env.storageOk with
              | false => simp [h5] at h
              | true =>
                simp only [h5, Bool.not_true, Bool.false_eq_true, if_false] at h
                cases h6 : env.getOk with
                | false => simp [h6] at h
                | true =>
                  simp only [h6, Bool.not_true, Bool.false_eq_true, if_false] at h
                  obtain ⟨he, hc⟩ := openCompress_sel _ _ _ _ _ _ h
                  rw [hc, he]

/-- A concrete all-ok open environment for witnesses. -/
def envOpenAll : OpenEnv := ⟨[], none, true, true, true, true, true, true, true, true⟩

/-- A concrete .gz source path for witnesses. -/
def srcAGz : Str := ['a', '.', 'g', 'z']

/-- The base handle open builds for srcAGz without a key. -/
def fpAGz : Strm := Strm.file srcAGz false

/-- The composed reader open builds for srcAGz without a key. -/
def rdAGz : Reader := ⟨Strm.gzipR fpAGz, fpAGz⟩

/-- Claim C9 witness. -/
theorem openStream_compression_select_witness :
    rdAGz.compressR =
      (if hasSuffix srcAGz gzSuf then Strm.gzipR rdAGz.encryptR
       else if hasSuffix srcAGz zstdSuf then Strm.zstdR rdAGz.encryptR
       else rdAGz.encryptR) :=
  openStream_compression_select envOpenAll srcAGz [] [] rdAGz
    [.osOpen, .gzipNew] rfl
/-- A concrete .zstd base handle for the C6 counterexample. -/
def fpBZstd : Strm := Strm.file ['b', '.', 'z', 's', 't', 'd'] false

/-- Claim C6 is false as stated: with a zstd compression layer distinct
from the base layer and a failing compression-layer close, reader.Close
does not close the base layer, refuting "closes the encryption/base layer
if and only if it is a distinct object". -/
theorem readerClose_skips_distinct_base_cex :
    (Reader.mk (Strm.zstdR fpBZstd) fpBZstd).encryptR
        ≠ (Reader.mk (Strm.zstdR fpBZstd) fpBZstd).compressR
    ∧ fpBZstd ∉ (readerClose (Reader.mk (Strm.zstdR fpBZstd) fpBZstd) false true).2 := by
  decide

/-- Claim C6 (amended): reader.Close always closes the compression layer
first; provided that close succeeds it then closes the base layer if and
only if the base is a distinct object, and when the two fields alias the
same object that object is closed exactly once; when the compression
close fails, the base close is skipped even for a distinct base. -/
theorem readerClose_order (rd : Reader) (compressOk baseOk : Bool) :
    (readerClose rd compressOk baseOk).2 =
      (if compressOk then
         if rd.encryptR = rd.compressR then [rd.compressR]
         else [rd.compressR, rd.encryptR]
       else [rd.compressR]) ∧
    (readerClose rd compressOk baseOk).2.head? = some rd.compressR ∧
    (rd.encryptR = rd.compressR →
      (readerClose rd compressOk baseOk).2.count rd.encryptR = 1) := by
  unfold readerClose
  cases compressOk with
  | false =>
    refine ⟨by simp, by simp, fun he => ?_⟩
    simp [he, List.count_singleton]
  | true =>
    by_cases he : rd.encryptR = rd.compressR
    · simp [he]
    · simp [he]

/-- Claim C6 (amended) witness. -/
theorem readerClose_order_witness :
    (readerClose (Reader.mk fpBZstd fpBZstd) true true).2.count
      (Reader.mk fpBZstd fpBZstd).encryptR = 1 :=
  (readerClose_order (Reader.mk fpBZstd fpBZstd) true true).2.2 rfl

/-- A concrete .gz base handle for the C5 counterexample. -/
def fpAGz2 : Strm := Strm.file ['a', '.', 'g', 'z'] false

/-- Claim C5 is false as stated: when closing the compression layer
returns an error, reader.Close returns at once and the distinct base
layer is never released. -/
theorem readerClose_error_leaks_base_cex :
    (readerClose (Reader.mk (Strm.gzipR fpAGz2) fpAGz2) false true).2
        = [Strm.gzipR fpAGz2]
    ∧ fpAGz2 ∉ (readerClose (Reader.mk (Strm.gzipR fpAGz2) fpAGz2) false true).2
    ∧ (Reader.mk (Strm.gzipR fpAGz2) fpAGz2).encryptR
        ≠ (Reader.mk (Strm.gzipR fpAGz2) fpAGz2).compressR := by
  decide

/-- Claim C5 (amended): convert does close both its writer and its reader
on a mid-copy failure (the deferred closes run, writer first), and
closing a ComposedStream always closes the compression layer but releases
the base/encryption layer only when the compression-layer close succeeds
and the base is distinct; on a compression-close error the base layer is
not released. -/
theorem close_discipline (env : ConvEnv) (path key algo nP : Str)
    (rd : Reader) (b : Bool) :
    ((key ≠ [] ∨ (hasSuffix path gzSuf || hasSuffix path zstdSuf) = true) →
     nPathOf path = some nP → fsExists env.fs nP = false →
     env.openOk = true → env.createOk = true → env.copyOk = false →
     convert env path key algo =
       some (.error .copyFail, fsSet (fsSet env.fs nP []) nP env.midCopyData,
             [.openSrc, .create nP, .closeWriter, .closeReader])) ∧
    (readerClose rd false b).2 = [rd.compressR] := by
  constructor
  · intro hneed hnp hexf hopen hcreate hcopy
    have hguard : (key.isEmpty &&
        !(hasSuffix path gzSuf || hasSuffix path zstdSuf)) = false := by
      rcases hneed with hk | hc
      · simp [List.isEmpty_iff, hk]
      · simp [hc]
    unfold convert
    simp only [hguard, Bool.false_eq_true, if_false, hnp]
    simp [hexf, hopen, osCreate, hcreate, hcopy]
  · unfold readerClose
    simp

/-- Claim C5 (amended) witness. -/
theorem close_discipline_witness :
    convert ⟨[], true, true, false, [], [5]⟩ ['a', '.', 'g', 'z'] [] [] =
      some (.error .copyFail, fsSet (fsSet [] ['a'] []) ['a'] [5],
            [.openSrc, .create ['a'], .closeWriter, .closeReader]) :=
  (close_discipline ⟨[], true, true, false, [], [5]⟩ ['a', '.', 'g', 'z'] [] [] ['a']
      (Reader.mk fpAGz2 fpAGz2) true).1
    (Or.inr (by decide)) (by decide) (by decide) rfl rfl rfl
/-- Claim C10: in inspection mode, an unset offset flag renders the
footer summary without offsets (one offset-free row per index entry), the
sentinel -1 renders the summary with every segment's offset (one row per
entry carrying that entry's offset), and any other offset value seeks to
that absolute offset from the start of the file and reads and renders
exactly one segment. -/
theorem statBak_modes (env : StatEnv) (path : Str) (f : Footer) (s : Segment)
    (k : Int) :
    (env.openOk = true → env.footer = some f → env.offsetFlag = none →
       statBak env path =
         (.summary f.version
            ((f.infos.map (fun i => Row.noOff i.name i.num)).mergeSort rowLe),
          [.openFile, .readFooter])) ∧
    (env.openOk = true → env.footer = some f → env.offsetFlag = some (-1) →
       statBak env path =
         (.summary f.version
            ((f.infos.map (fun i => Row.withOff i.name i.num i.offset)).mergeSort rowLe),
          [.openFile, .readFooter])
       ∧ ∀ i ∈ f.infos,
           Row.withOff i.name i.num i.offset ∈
             (f.infos.map (fun j => Row.withOff j.name j.num j.offset)).mergeSort rowLe) ∧
    (env.openOk = true → env.offsetFlag = some k → k ≠ -1 → env.segAt k = some s →
       statBak env path = (.detail s, [.openFile, .seekStart k, .readSegment])
       ∧ [FOp.openFile, FOp.seekStart k, FOp.readSegment].count .readSegment = 1) := by
  refine ⟨fun hop hf hoff => ?_, fun hop hf hoff => ⟨?_, ?_⟩, fun hop hoff hk hseg => ⟨?_, ?_⟩⟩
  · unfold statBak showBakSummary
    simp [hop, hf, hoff]
  · unfold statBak showBakSummary
    simp [hop, hf, hoff]
  · intro i hi
    rw [List.mem_mergeSort]
    exact List.mem_map.mpr ⟨i, hi, rfl⟩
  · unfold statBak showBakDetail
    simp [hop, hoff, hk, hseg]
  · simp [List.count_cons]
/-- A concrete one-entry footer for the C10 witness. -/
def fA : Footer := ⟨1, [⟨['e'], 2, 7⟩]⟩

/-- A concrete segment oracle for the C10 witness. -/
def segEV : Int → Option Segment := fun o => if o = 7 then some ⟨['e'], ['v']⟩ else none

/-- Claim C10 witness. -/
theorem statBak_modes_witness :
    statBak ⟨true, none, some fA, segEV⟩ ['p'] =
      (.summary 1 ((fA.infos.map (fun i => Row.noOff i.name i.num)).mergeSort rowLe),
       [.openFile, .readFooter]) ∧
    statBak ⟨true, some (-1), some fA, segEV⟩ ['p'] =
      (.summary 1 ((fA.infos.map (fun i => Row.withOff i.name i.num i.offset)).mergeSort rowLe),
       [.openFile, .readFooter]) ∧
    statBak ⟨true, some 7, some fA, segEV⟩ ['p'] =
      (.detail ⟨['e'], ['v']⟩, [.openFile, .seekStart 7, .readSegment]) :=
  ⟨(statBak_modes ⟨true, none, some fA, segEV⟩ ['p'] fA ⟨['e'], ['v']⟩ 7).1 rfl rfl rfl,
   ((statBak_modes ⟨true, some (-1), some fA, segEV⟩ ['p'] fA ⟨['e'], ['v']⟩ 7).2.1
      rfl rfl rfl).1,
   ((statBak_modes ⟨true, some 7, some fA, segEV⟩ ['p'] fA ⟨['e'], ['v']⟩ 7).2.2
      rfl rfl (by decide) (by decide)).1⟩
end JuiceFS
